import Mathlib

/-!
Verification development for a single-threaded memoization library with two
components:

* `Memoized` — a lazy memoizer: an enum `UnInitialized(Box<dyn FnMut(I) -> T>)`
  / `Data(T)`; `get` invokes the producer on the first call, replaces the enum
  with `Data`, and returns a reference to the stored value thereafter.
* `MemoizedWithExpiration` — an expiring memoizer: a struct holding a
  `duration: Duration`, a `last: Instant` (set to `Instant::now()` in `new`),
  the producer `f`, and `t: Option<Rc<T>>`; `get` recomputes when
  `t.is_none() || last.elapsed() > duration`, then returns
  `Rc::clone(t.as_ref().unwrap())`.

Modelling conventions of the shallow embedding:

* The boxed `FnMut` producer is modelled as a fixed step function
  `f : σ → I → T × σ` together with its captured mutable state `σ`, threaded
  explicitly.  For the lazy memoizer the closure (and its state) is dropped on
  the transition to `Data`, exactly as the Rust assignment `*self = Data(t)`
  drops the box.
* `Instant` is a `Nat` clock value; each `get` call receives the current time
  `now`, and `last.elapsed()` is `now - last` (truncated subtraction; real
  clocks are monotone so `now ≥ last` in every real trace).
* `Rc<T>` is an address into an append-only `Heap`; `Rc::new` allocates a
  fresh cell, `Rc::clone` copies the address.  This lets us state that
  recomputation installs a *new* handle and never mutates cells behind
  previously returned handles.
* The `unreachable!()` arm of `Memoized::get` and the `.unwrap()` of
  `MemoizedWithExpiration::get` are modelled by an `Option` result: `none`
  is the panic path.  Producer panics (for the error-handling claims) are
  modelled by `Except`-returning producers in the `getE` variants, which
  follow the statement order of the source: the state updates that textually
  follow the producer call do not happen when the producer fails.
* Every operation also reports the number of producer invocations it
  performed (`calls`), so invocation-counting claims can be stated directly.
-/

/-- Append-only heap modelling the store of `Rc` cells: an address is an index
into `cells`. -/
structure Heap (T : Type) where
  cells : List T
deriving DecidableEq

/-- `Rc::new`: allocate a fresh cell, returning its address and the new heap.
The fresh address is `cells.length`, distinct from every existing address. -/
def Heap.alloc {T : Type} (h : Heap T) (v : T) : Nat × Heap T :=
  (h.cells.length, ⟨h.cells ++ [v]⟩)

/-- Dereference an address (the value behind an `Rc` handle). -/
def Heap.read {T : Type} (h : Heap T) (a : Nat) : Option T :=
  h.cells.get? a

/-- The lazy memoizer enum `Memoized<'a, I, T>`: `UnInitialized` holds the
producer closure (here: its captured state, the code being the fixed `f`
parameter of the operations), `Data` holds the computed value. -/
inductive Memoized (T σ : Type) where
  | unInitialized (s : σ)
  | data (t : T)
deriving DecidableEq

/-- `Memoized::new` wraps the producer (state) in `UnInitialized`. -/
def Memoized.new {T σ : Type} (s0 : σ) : Memoized T σ :=
  .unInitialized s0

/-- Result of one `Memoized::get` call: the returned reference (`none` models
the `unreachable!()` panic arm), the state of the memoizer after the call, and
the number of producer invocations made by the call. -/
structure GetRes (T σ : Type) where
  result : Option T
  state : Memoized T σ
  calls : Nat
deriving DecidableEq

/-- `Memoized::get`: on `UnInitialized`, invoke the producer, overwrite `self`
with `Data`, then match on the new `self` (the `_ => unreachable!()` arm is the
`none` result); on `Data`, return the stored value without invoking anything. -/
def Memoized.get {I T σ : Type} (f : σ → I → T × σ) :
    Memoized T σ → I → GetRes T σ
  | .unInitialized s, input =>
      let p := f s input
      let newSelf : Memoized T σ := .data p.1
      match newSelf with
      | .data t => ⟨some t, .data t, 1⟩
      | .unInitialized s' => ⟨none, .unInitialized s', 1⟩
  | .data t, _ => ⟨some t, .data t, 0⟩

/-- Result of a sequence of `Memoized::get` calls. -/
structure RunRes (T σ : Type) where
  results : List (Option T)
  state : Memoized T σ
  calls : Nat
deriving DecidableEq

/-- Sequential `Memoized::get` calls, one per input in the list, threading the
memoizer state and summing producer invocations. -/
def Memoized.run {I T σ : Type} (f : σ → I → T × σ) (m : Memoized T σ) :
    List I → RunRes T σ
  | [] => ⟨[], m, 0⟩
  | i :: is =>
      let r := Memoized.get f m i
      let rest := Memoized.run f r.state is
      ⟨r.result :: rest.results, rest.state, r.calls + rest.calls⟩

/-- The expiring memoizer struct `MemoizedWithExpiration<'a, I, T>`:
`duration`, `last: Instant` (a `Nat` clock value — note the field is an
`Instant`, not an `Option<Instant>`), the producer state (the code being the
fixed `f` parameter of `get`), and `t: Option<Rc<T>>` as an optional heap
address. -/
structure MemoizedWithExpiration (σ : Type) where
  duration : Nat
  last : Nat
  fState : σ
  t : Option Nat
deriving DecidableEq

/-- `MemoizedWithExpiration::new`: stores the duration, sets
`last = Instant::now()` (the construction time `now`), wraps the producer, and
leaves `t = None`. -/
def MemoizedWithExpiration.new {σ : Type} (s0 : σ) (duration now : Nat) :
    MemoizedWithExpiration σ :=
  ⟨duration, now, s0, none⟩

/-- Result of one `MemoizedWithExpiration::get` call: the returned `Rc` handle
(`none` models a failing `.unwrap()`), the struct after the call, the heap
after the call, and the number of producer invocations made by the call. -/
structure ExpGetRes (T σ : Type) where
  result : Option Nat
  state : MemoizedWithExpiration σ
  heap : Heap T
  calls : Nat
deriving DecidableEq

/-- `MemoizedWithExpiration::get`: if `t.is_none() || last.elapsed() > duration`
then invoke the producer, store the result behind a freshly allocated `Rc` and
set `last` to the current time; in all cases return `Rc::clone` of the stored
handle (`upd.1.t`, whose `none` case is the `.unwrap()` panic path). -/
def MemoizedWithExpiration.get {I T σ : Type} (f : σ → I → T × σ)
    (m : MemoizedWithExpiration σ) (heap : Heap T) (input : I) (now : Nat) :
    ExpGetRes T σ :=
  let upd :=
    if m.t.isNone ∨ now - m.last > m.duration then
      let p := f m.fState input
      let a := heap.alloc p.1
      (({ m with t := some a.1, last := now, fState := p.2 } :
          MemoizedWithExpiration σ), a.2, 1)
    else (m, heap, 0)
  ⟨upd.1.t, upd.1, upd.2.1, upd.2.2⟩

/-- Result of a sequence of `MemoizedWithExpiration::get` calls. -/
structure ExpRunRes (T σ : Type) where
  state : MemoizedWithExpiration σ
  heap : Heap T
  calls : Nat
deriving DecidableEq

/-- Sequential `MemoizedWithExpiration::get` calls: each list element is an
`(input, now)` pair — the argument and the clock value at that call. -/
def MemoizedWithExpiration.run {I T σ : Type} (f : σ → I → T × σ)
    (m : MemoizedWithExpiration σ) (heap : Heap T) :
    List (I × Nat) → ExpRunRes T σ
  | [] => ⟨m, heap, 0⟩
  | c :: cs =>
      let r := MemoizedWithExpiration.get f m heap c.1 c.2
      let rest := MemoizedWithExpiration.run f r.state r.heap cs
      ⟨rest.state, rest.heap, r.calls + rest.calls⟩

/-- `Memoized::get` with a fallible producer: a panic of the producer is an
`Except.error`, and — following the statement order of the source — the
assignment `*self = Data(t)` that textually follows the producer call does not
happen, so the returned state is the unchanged `UnInitialized` one. -/
def Memoized.getE {I T σ ε : Type} (fE : σ → I → Except ε (T × σ)) :
    Memoized T σ → I → Except ε (Option T) × Memoized T σ × Nat
  | .unInitialized s, input =>
      match fE s input with
      | .error e => (.error e, .unInitialized s, 1)
      | .ok p => (.ok (some p.1), .data p.1, 1)
  | .data t, _ => (.ok (some t), .data t, 0)

/-- `MemoizedWithExpiration::get` with a fallible producer: when the producer
fails inside the stale branch, neither `t` nor `last` is assigned (both
assignments textually follow the producer call) and nothing is allocated, so
state and heap are returned unchanged. -/
def MemoizedWithExpiration.getE {I T σ ε : Type} (fE : σ → I → Except ε (T × σ))
    (m : MemoizedWithExpiration σ) (heap : Heap T) (input : I) (now : Nat) :
    Except ε (Option Nat) × MemoizedWithExpiration σ × Heap T × Nat :=
  if m.t.isNone ∨ now - m.last > m.duration then
    match fE m.fState input with
    | .error e => (.error e, m, heap, 1)
    | .ok p =>
        let a := heap.alloc p.1
        let m' : MemoizedWithExpiration σ :=
          { m with t := some a.1, last := now, fState := p.2 }
        (.ok m'.t, m', a.2, 1)
  else (.ok m.t, m, heap, 0)

/-! ### Helper lemmas -/

/-- A `get` on a `Data` state returns the stored value, keeps the state, and
makes no producer call. -/
theorem Memoized.get_data {I T σ : Type} (f : σ → I → T × σ) (t : T) (i : I) :
    Memoized.get f (.data t) i = ⟨some t, .data t, 0⟩ := rfl

/-- A `get` on an `UnInitialized` state invokes the producer once and
transitions to `Data`. -/
theorem Memoized.get_unInitialized {I T σ : Type} (f : σ → I → T × σ) (s : σ)
    (i : I) :
    Memoized.get f (.unInitialized s) i
      = ⟨some (f s i).1, .data (f s i).1, 1⟩ := rfl

/-- A run starting from `Data t` returns `t` on every call, stays in `Data t`,
and never invokes the producer. -/
theorem Memoized.run_data {I T σ : Type} (f : σ → I → T × σ) (t : T)
    (is : List I) :
    Memoized.run f (.data t) is = ⟨is.map fun _ => some t, .data t, 0⟩ := by
  induction is with
  | nil => rfl
  | cons i is ih => simp [Memoized.run, Memoized.get_data, ih]

/-- A `get` on a stale expiring memoizer: invoke the producer once, allocate
the result at the fresh address `heap.cells.length`, store that handle, and
set `last := now`. -/
theorem MemoizedWithExpiration.get_stale {I T σ : Type} (f : σ → I → T × σ)
    (m : MemoizedWithExpiration σ) (heap : Heap T) (input : I) (now : Nat)
    (h : m.t.isNone ∨ now - m.last > m.duration) :
    MemoizedWithExpiration.get f m heap input now
      = ⟨some heap.cells.length,
         { m with t := some heap.cells.length, last := now,
                  fState := (f m.fState input).2 },
         ⟨heap.cells ++ [(f m.fState input).1]⟩, 1⟩ := by
  unfold MemoizedWithExpiration.get
  rw [if_pos h]
  rfl

/-- A `get` on a non-stale expiring memoizer returns the stored handle and
changes nothing. -/
theorem MemoizedWithExpiration.get_fresh {I T σ : Type} (f : σ → I → T × σ)
    (m : MemoizedWithExpiration σ) (heap : Heap T) (input : I) (now : Nat)
    (h : ¬(m.t.isNone ∨ now - m.last > m.duration)) :
    MemoizedWithExpiration.get f m heap input now = ⟨m.t, m, heap, 0⟩ := by
  unfold MemoizedWithExpiration.get
  rw [if_neg h]

/-- Reading a pre-existing address is unaffected by appending a cell. -/
theorem Heap.read_append_lt {T : Type} (cells : List T) (v : T) (a : Nat)
    (ha : a < cells.length) :
    Heap.read ⟨cells ++ [v]⟩ a = Heap.read ⟨cells⟩ a := by
  simp [Heap.read, List.getElem?_append_left ha]

/-! ### Claims about the lazy memoizer -/

/-- C1: across any `N ≥ 1` sequential `get` calls on one lazy memoizer
instance (here a run over `i :: is`, so `N = is.length + 1 ≥ 1`), the producer
is invoked exactly once, and every call returns the value computed on the
first call, namely `(f s0 i).1`. -/
theorem lazy_single_computation {I T σ : Type} (f : σ → I → T × σ) (s0 : σ)
    (i : I) (is : List I) :
    (Memoized.run f (.unInitialized s0) (i :: is)).calls = 1 ∧
    ∀ x ∈ (Memoized.run f (.unInitialized s0) (i :: is)).results,
      x = some (f s0 i).1 := by
  have h1 : Memoized.run f (.unInitialized s0) (i :: is)
      = ⟨some (f s0 i).1 :: is.map (fun _ => some (f s0 i).1),
         .data (f s0 i).1, 1⟩ := by
    simp [Memoized.run, Memoized.get_unInitialized, Memoized.run_data]
  rw [h1]
  refine ⟨rfl, ?_⟩
  intro x hx
  simp only [List.mem_cons, List.mem_map] at hx
  rcases hx with h | ⟨_, _, h⟩ <;> exact h.symm ▸ rfl

/-- C1 witness: a concrete three-call run (producer counts its invocations)
makes one producer call and returns the first result on every call. -/
theorem lazy_single_computation_witness :
    (Memoized.run (fun s (x : Nat) => (x + s, s + 1)) (.unInitialized 5)
        (1 :: [2, 3])).calls = 1 ∧
    ∀ x ∈ (Memoized.run (fun s (x : Nat) => (x + s, s + 1)) (.unInitialized 5)
        (1 :: [2, 3])).results,
      x = some ((fun s (x : Nat) => (x + s, s + 1)) 5 1).1 :=
  lazy_single_computation (fun s x => (x + s, s + 1)) 5 1 [2, 3]

/-- C5: the transition `Pending → Resolved` (`UnInitialized → Data`) happens
at most once per instance: a `get` on a `Data` state stays in the same `Data`
state with no producer call (no transition back), and a run of `N ≥ 1` calls
from `UnInitialized` ends in `Data` holding the first result with exactly one
producer call — the invocation count coincides with the transition count, and
the transition is triggered by the first call. -/
theorem lazy_transition_once {I T σ : Type} (f : σ → I → T × σ) (s0 : σ)
    (t : T) (j i : I) (is : List I) :
    Memoized.get f (.data t) j = ⟨some t, .data t, 0⟩ ∧
    (Memoized.run f (.unInitialized s0) (i :: is)).state = .data (f s0 i).1 ∧
    (Memoized.run f (.unInitialized s0) (i :: is)).calls = 1 := by
  refine ⟨rfl, ?_, ?_⟩ <;>
    simp [Memoized.run, Memoized.get_unInitialized, Memoized.run_data]

/-- C10: no panic originates in the memoizers themselves: the result of
`Memoized::get` is never the `unreachable!()` arm (`none`), and the result of
`MemoizedWithExpiration::get` is never a failing `.unwrap()` (`none`), for
every reachable and unreachable state alike. -/
theorem get_never_panics {I T σ : Type} (f : σ → I → T × σ) (m : Memoized T σ)
    (input : I) (m2 : MemoizedWithExpiration σ) (heap : Heap T) (now : Nat) :
    (Memoized.get f m input).result.isSome = true ∧
    (MemoizedWithExpiration.get f m2 heap input now).result.isSome = true := by
  constructor
  · cases m <;> rfl
  · by_cases h : m2.t.isNone ∨ now - m2.last > m2.duration
    · rw [MemoizedWithExpiration.get_stale f m2 heap input now h]
      rfl
    · rw [MemoizedWithExpiration.get_fresh f m2 heap input now h]
      rcases hm : m2.t with _ | v
      · exact absurd (Or.inl (by simp [hm])) h
      · rfl

/-! ### Concrete instances used by witnesses and scenarios -/

/-- Producer with a counter state: returns `input + state`, then bumps the
state (a concrete `FnMut` closure for witnesses). -/
def fAdd : Nat → Nat → Nat × Nat := fun s x => (x + s, s)

/-- Scenario C producer: `f(x) = x + 1`, stateless. -/
def fSucc : Unit → Nat → Nat × Unit := fun _ x => (x + 1, ())

/-- A stale expiring memoizer: duration 1, last computation at time 0 (stale
at any `now > 1`), cached handle at address 0. -/
def mStale : MemoizedWithExpiration Nat := ⟨1, 0, 4, some 0⟩

/-- A non-stale expiring memoizer at `now = 12`: duration 5, last computation
at time 10, cached handle at address 0. -/
def mFresh : MemoizedWithExpiration Nat := ⟨5, 10, 0, some 0⟩

/-- A one-cell heap. -/
def heap7 : Heap Nat := ⟨[7]⟩

/-- Another one-cell heap. -/
def heap9 : Heap Nat := ⟨[9]⟩

/-- Scenario C, first call: `Access(0)` at time 0 on a fresh instance with
duration 1. -/
def scenC1 : ExpGetRes Nat Unit :=
  MemoizedWithExpiration.get fSucc (MemoizedWithExpiration.new () 1 0) ⟨[]⟩ 0 0

/-- Scenario C, second call: `Access(10)` immediately afterwards (time 0). -/
def scenC2 : ExpGetRes Nat Unit :=
  MemoizedWithExpiration.get fSucc scenC1.state scenC1.heap 10 0

/-- Scenario C, third call: `Access(10)` after expiration (time 2 > 1). -/
def scenC3 : ExpGetRes Nat Unit :=
  MemoizedWithExpiration.get fSucc scenC2.state scenC2.heap 10 2

/-! ### Claims about the expiring memoizer -/

/-- C2: a `get` call invokes the producer iff the cached value is unset or the
elapsed time strictly exceeds the validity duration; it makes at most one
invocation per call; it always returns the currently stored handle; and on
invocation it refreshes the timestamp to `now` and stores a fresh handle to
the newly produced value. -/
theorem mwe_access_contract {I T σ : Type} (f : σ → I → T × σ)
    (m : MemoizedWithExpiration σ) (heap : Heap T) (input : I) (now : Nat) :
    ((MemoizedWithExpiration.get f m heap input now).calls = 1
        ↔ (m.t.isNone ∨ now - m.last > m.duration)) ∧
    (MemoizedWithExpiration.get f m heap input now).calls ≤ 1 ∧
    (MemoizedWithExpiration.get f m heap input now).result
        = (MemoizedWithExpiration.get f m heap input now).state.t ∧
    ((m.t.isNone ∨ now - m.last > m.duration) →
      (MemoizedWithExpiration.get f m heap input now).state.last = now ∧
      (MemoizedWithExpiration.get f m heap input now).state.t
          = some heap.cells.length ∧
      (MemoizedWithExpiration.get f m heap input now).heap.read
          heap.cells.length = some (f m.fState input).1) := by
  by_cases h : m.t.isNone ∨ now - m.last > m.duration
  · rw [MemoizedWithExpiration.get_stale f m heap input now h]
    refine ⟨iff_of_true rfl h, Nat.le_refl 1, rfl,
      fun _ => ⟨rfl, rfl, ?_⟩⟩
    show Heap.read ⟨heap.cells ++ [(f m.fState input).1]⟩ heap.cells.length
        = some (f m.fState input).1
    induction heap.cells with
    | nil => rfl
    | cons c cs ih => simp only [Heap.read, List.cons_append, List.length_cons,
        List.get?] at ih ⊢; exact ih
  · rw [MemoizedWithExpiration.get_fresh f m heap input now h]
    exact ⟨iff_of_false (by simp) h, Nat.zero_le 1, rfl, fun hs => absurd hs h⟩

/-- C2 witness: the contract evaluated on a concrete stale instance. -/
theorem mwe_access_contract_witness :
    ((MemoizedWithExpiration.get fAdd mStale heap9 3 5).calls = 1
        ↔ (mStale.t.isNone ∨ 5 - mStale.last > mStale.duration)) ∧
    (MemoizedWithExpiration.get fAdd mStale heap9 3 5).calls ≤ 1 ∧
    (MemoizedWithExpiration.get fAdd mStale heap9 3 5).result
        = (MemoizedWithExpiration.get fAdd mStale heap9 3 5).state.t ∧
    ((mStale.t.isNone ∨ 5 - mStale.last > mStale.duration) →
      (MemoizedWithExpiration.get fAdd mStale heap9 3 5).state.last = 5 ∧
      (MemoizedWithExpiration.get fAdd mStale heap9 3 5).state.t
          = some heap9.cells.length ∧
      (MemoizedWithExpiration.get fAdd mStale heap9 3 5).heap.read
          heap9.cells.length = some (fAdd mStale.fState 3).1) :=
  mwe_access_contract fAdd mStale heap9 3 5

/-- C3: a `get` on a non-stale instance (cached value set, elapsed time within
the duration) changes nothing at all: no producer call, and the whole struct —
`duration`, `last`, the producer state and `t` — as well as the heap are
returned exactly as they were, with the stored handle as result. -/
theorem mwe_not_stale_frame {I T σ : Type} (f : σ → I → T × σ)
    (m : MemoizedWithExpiration σ) (heap : Heap T) (input : I) (now : Nat)
    (h1 : m.t.isSome = true) (h2 : now - m.last ≤ m.duration) :
    MemoizedWithExpiration.get f m heap input now = ⟨m.t, m, heap, 0⟩ := by
  apply MemoizedWithExpiration.get_fresh
  rintro (hn | hgt)
  · rcases hm : m.t with _ | v
    · rw [hm] at h1; exact absurd h1 (by simp)
    · rw [hm] at hn; exact absurd hn (by simp)
  · omega

/-- C3 witness: the frame property evaluated on a concrete non-stale
instance. -/
theorem mwe_not_stale_frame_witness :
    MemoizedWithExpiration.get fAdd mFresh heap7 3 12
      = ⟨mFresh.t, mFresh, heap7, 0⟩ :=
  mwe_not_stale_frame fAdd mFresh heap7 3 12 (by decide) (by decide)

/-- C4 counterexample: with `validity_duration = 0`, a `get` at the very
timestamp of the last computation does NOT invoke the producer — the staleness
check `elapsed > duration` is strict, and `0 > 0` is false — refuting that
every call recomputes regardless of how little time has elapsed.  Concretely:
construct at time 0 with duration 0; the first call at time 0 computes
(`calls = 1`); a second call, also at time 0, makes no producer call. -/
theorem mwe_zero_duration_counterexample :
    (MemoizedWithExpiration.get (fun (s : Nat) (_ : Unit) => (s + 1, s + 1))
        (MemoizedWithExpiration.new 0 0 0) ⟨[]⟩ () 0).calls = 1 ∧
    (MemoizedWithExpiration.get (fun (s : Nat) (_ : Unit) => (s + 1, s + 1))
        (MemoizedWithExpiration.get (fun (s : Nat) (_ : Unit) => (s + 1, s + 1))
            (MemoizedWithExpiration.new 0 0 0) ⟨[]⟩ () 0).state
        (MemoizedWithExpiration.get (fun (s : Nat) (_ : Unit) => (s + 1, s + 1))
            (MemoizedWithExpiration.new 0 0 0) ⟨[]⟩ () 0).heap () 0).calls
      = 0 := by
  decide

/-- C4 amended: with `validity_duration = 0`, a `get` call invokes the
producer iff the cached value is unset or the elapsed time since the last
computation is strictly positive — i.e. every call recomputes except one made
at the exact timestamp of the last computation. -/
theorem mwe_zero_duration_amended {I T σ : Type} (f : σ → I → T × σ)
    (m : MemoizedWithExpiration σ) (heap : Heap T) (input : I) (now : Nat)
    (hd : m.duration = 0) :
    (MemoizedWithExpiration.get f m heap input now).calls = 1
      ↔ (m.t = none ∨ m.last < now) := by
  by_cases h : m.t.isNone ∨ now - m.last > m.duration
  · rw [MemoizedWithExpiration.get_stale f m heap input now h]
    refine iff_of_true rfl ?_
    rcases h with hn | hgt
    · exact Or.inl (Option.isNone_iff_eq_none.mp hn)
    · exact Or.inr (by omega)
  · rw [MemoizedWithExpiration.get_fresh f m heap input now h]
    refine iff_of_false (by simp) ?_
    rintro (hn | hlt)
    · exact h (Or.inl (by simp [hn]))
    · exact h (Or.inr (by omega))

/-- C4 amended witness: a concrete zero-duration instance recomputes at
`now = 1`, one clock tick after the last computation at time 0. -/
theorem mwe_zero_duration_amended_witness :
    (MemoizedWithExpiration.get fAdd ⟨0, 0, 4, some 0⟩ heap9 3 1).calls = 1
      ↔ ((⟨0, 0, 4, some 0⟩ : MemoizedWithExpiration Nat).t = none ∨
          (⟨0, 0, 4, some 0⟩ : MemoizedWithExpiration Nat).last < 1) :=
  mwe_zero_duration_amended fAdd ⟨0, 0, 4, some 0⟩ heap9 3 1 rfl

/-- C6: an input passed to `get` is used only when the producer actually runs:
a resolved lazy memoizer returns the same thing for any two inputs, a
non-stale expiring memoizer returns the same thing for any two inputs, and
Scenario C holds — with producer `f(x) = x + 1` and duration 1, `Access(0)` at
time 0 yields 1, `Access(10)` still at time 0 yields 1 with no producer call
(the new input is discarded), and `Access(10)` at time 2 (past expiration)
yields 11 with one producer call. -/
theorem input_ignored_when_cached {I T σ : Type} (f : σ → I → T × σ) (t : T)
    (i1 i2 : I) (m : MemoizedWithExpiration σ) (heap : Heap T) (now : Nat)
    (h : ¬(m.t.isNone ∨ now - m.last > m.duration)) :
    Memoized.get f (.data t) i1 = Memoized.get f (.data t) i2 ∧
    MemoizedWithExpiration.get f m heap i1 now
      = MemoizedWithExpiration.get f m heap i2 now ∧
    (scenC1.result.bind scenC1.heap.read = some 1 ∧
     scenC2.result.bind scenC2.heap.read = some 1 ∧ scenC2.calls = 0 ∧
     scenC3.result.bind scenC3.heap.read = some 11 ∧ scenC3.calls = 1) := by
  refine ⟨rfl, ?_, by decide⟩
  rw [MemoizedWithExpiration.get_fresh f m heap i1 now h,
      MemoizedWithExpiration.get_fresh f m heap i2 now h]

/-- C6 witness: the input-independence conjuncts evaluated on concrete
resolved / non-stale instances. -/
theorem input_ignored_when_cached_witness :
    Memoized.get fAdd (.data 42) 1 = Memoized.get fAdd (.data 42) 2 ∧
    MemoizedWithExpiration.get fAdd mFresh heap7 1 12
      = MemoizedWithExpiration.get fAdd mFresh heap7 2 12 ∧
    (scenC1.result.bind scenC1.heap.read = some 1 ∧
     scenC2.result.bind scenC2.heap.read = some 1 ∧ scenC2.calls = 0 ∧
     scenC3.result.bind scenC3.heap.read = some 11 ∧ scenC3.calls = 1) :=
  input_ignored_when_cached fAdd 42 1 2 mFresh heap7 12 (by decide)

/-- C7: if the producer fails during a state-changing `get`, no partial state
change is committed: the lazy memoizer stays `UnInitialized` with its
producer, and the expiring memoizer keeps its previous `t`/`last` pair (and
the heap is untouched), so a later call retries under the same staleness
rule.  The failure propagates as the call's result. -/
theorem producer_failure_no_partial_state {I T σ ε : Type}
    (fE : σ → I → Except ε (T × σ)) (s : σ) (input : I) (e : ε)
    (m : MemoizedWithExpiration σ) (heap : Heap T) (now : Nat)
    (h1 : fE s input = .error e) (h2 : fE m.fState input = .error e)
    (h3 : m.t.isNone ∨ now - m.last > m.duration) :
    Memoized.getE fE (.unInitialized s) input
      = (.error e, .unInitialized s, 1) ∧
    MemoizedWithExpiration.getE fE m heap input now
      = (.error e, m, heap, 1) := by
  constructor
  · simp [Memoized.getE, h1]
  · unfold MemoizedWithExpiration.getE
    rw [if_pos h3, h2]

/-- C7 witness: a producer that always fails leaves a concrete lazy instance
`UnInitialized` and a concrete stale expiring instance untouched. -/
theorem producer_failure_no_partial_state_witness :
    Memoized.getE (fun (_ _ : Nat) => (.error 7 : Except Nat (Nat × Nat)))
        (.unInitialized 0) 1 = (.error 7, .unInitialized 0, 1) ∧
    MemoizedWithExpiration.getE
        (fun (_ _ : Nat) => (.error 7 : Except Nat (Nat × Nat)))
        ⟨3, 0, 0, none⟩ ⟨[]⟩ 1 0 = (.error 7, ⟨3, 0, 0, none⟩, ⟨[]⟩, 1) :=
  producer_failure_no_partial_state _ 0 1 7 ⟨3, 0, 0, none⟩ ⟨[]⟩ 0 rfl rfl
    (Or.inl rfl)

/-- C8: handles are independent of later recomputations: after any `get`, the
value behind every pre-existing address (in particular behind every previously
returned handle) is unchanged, and a recomputation stores a handle to the
fresh address `heap.cells.length`, distinct from every pre-existing address —
it installs a new handle instead of mutating the old cell. -/
theorem handle_independence {I T σ : Type} (f : σ → I → T × σ)
    (m : MemoizedWithExpiration σ) (heap : Heap T) (input : I) (now : Nat)
    (a : Nat) (ha : a < heap.cells.length) :
    (MemoizedWithExpiration.get f m heap input now).heap.read a
      = heap.read a ∧
    ((m.t.isNone ∨ now - m.last > m.duration) →
      (MemoizedWithExpiration.get f m heap input now).state.t
          = some heap.cells.length ∧ heap.cells.length ≠ a) := by
  by_cases h : m.t.isNone ∨ now - m.last > m.duration
  · rw [MemoizedWithExpiration.get_stale f m heap input now h]
    exact ⟨Heap.read_append_lt _ _ _ ha, fun _ => ⟨rfl, by omega⟩⟩
  · rw [MemoizedWithExpiration.get_fresh f m heap input now h]
    exact ⟨rfl, fun hs => absurd hs h⟩

/-- C8 witness: on a concrete stale instance, the recomputation leaves the
old cell (address 0) intact and stores the fresh address 1. -/
theorem handle_independence_witness :
    (MemoizedWithExpiration.get fAdd mStale heap7 3 5).heap.read 0
      = heap7.read 0 ∧
    ((mStale.t.isNone ∨ 5 - mStale.last > mStale.duration) →
      (MemoizedWithExpiration.get fAdd mStale heap7 3 5).state.t
          = some heap7.cells.length ∧ heap7.cells.length ≠ 0) :=
  handle_independence fAdd mStale heap7 3 5 0 (by decide)

/-- Over any call sequence, the stored handle is `none` iff it started as
`none` and no call invoked the producer. -/
theorem MemoizedWithExpiration.run_t_none_iff {I T σ : Type}
    (f : σ → I → T × σ) (m : MemoizedWithExpiration σ) (heap : Heap T)
    (cs : List (I × Nat)) :
    ((MemoizedWithExpiration.run f m heap cs).state.t = none
      ↔ (m.t = none ∧ (MemoizedWithExpiration.run f m heap cs).calls = 0)) := by
  induction cs generalizing m heap with
  | nil => simp [MemoizedWithExpiration.run]
  | cons c cs ih =>
      by_cases h : m.t.isNone ∨ c.2 - m.last > m.duration
      · simp only [MemoizedWithExpiration.run,
          MemoizedWithExpiration.get_stale f m heap c.1 c.2 h]
        rw [ih]
        simp
      · simp only [MemoizedWithExpiration.run,
          MemoizedWithExpiration.get_fresh f m heap c.1 c.2 h]
        rw [ih]
        simp

/-- C9 counterexample: a freshly constructed expiring memoizer does NOT leave
`last_computed_at` unset until the first computation: `new` stores the
construction time in `last` (the Rust field is an `Instant` initialized to
`Instant::now()`, not an `Option<Instant>`).  Concretely, constructing at time
5 records the timestamp 5 while `t` shows that no computation has occurred. -/
theorem mwe_new_last_counterexample :
    (MemoizedWithExpiration.new (0 : Nat) 7 5).last = 5 ∧
    (MemoizedWithExpiration.new (0 : Nat) 7 5).t = none := by
  decide

/-- C9 amended: in a freshly constructed expiring memoizer, `last` holds the
construction time (the field is always set) and the cached handle is unset;
`last` is refreshed to the call time exactly on the calls that invoke the
producer and — like the rest of the state — untouched on the others, so after
any call sequence starting from `new` the cached handle is unset iff no
producer invocation has ever occurred. -/
theorem mwe_timestamp_amended {I T σ : Type} (f : σ → I → T × σ) (s0 : σ)
    (d now0 now : Nat) (m : MemoizedWithExpiration σ) (heap : Heap T)
    (input : I) (cs : List (I × Nat)) :
    (MemoizedWithExpiration.new s0 d now0).t = none ∧
    (MemoizedWithExpiration.new s0 d now0).last = now0 ∧
    ((MemoizedWithExpiration.get f m heap input now).calls = 1 →
      (MemoizedWithExpiration.get f m heap input now).state.last = now) ∧
    ((MemoizedWithExpiration.get f m heap input now).calls = 0 →
      (MemoizedWithExpiration.get f m heap input now).state = m) ∧
    ((MemoizedWithExpiration.run f (MemoizedWithExpiration.new s0 d now0)
        heap cs).state.t = none
      ↔ (MemoizedWithExpiration.run f (MemoizedWithExpiration.new s0 d now0)
        heap cs).calls = 0) := by
  refine ⟨rfl, rfl, ?_, ?_, ?_⟩
  · intro hc
    by_cases h : m.t.isNone ∨ now - m.last > m.duration
    · rw [MemoizedWithExpiration.get_stale f m heap input now h]
    · rw [MemoizedWithExpiration.get_fresh f m heap input now h] at hc
      exact absurd hc (by simp)
  · intro hc
    by_cases h : m.t.isNone ∨ now - m.last > m.duration
    · rw [MemoizedWithExpiration.get_stale f m heap input now h] at hc
      exact absurd hc (by simp)
    · rw [MemoizedWithExpiration.get_fresh f m heap input now h]
  · rw [MemoizedWithExpiration.run_t_none_iff]
    simp [MemoizedWithExpiration.new]

/-- C9 amended witness: the amended invariants evaluated on concrete
instances and a concrete one-call sequence. -/
theorem mwe_timestamp_amended_witness :
    (MemoizedWithExpiration.new () 7 5).t = none ∧
    (MemoizedWithExpiration.new () 7 5).last = 5 ∧
    ((MemoizedWithExpiration.get fSucc ⟨1, 0, (), some 0⟩ ⟨[2]⟩ 4 3).calls = 1 →
      (MemoizedWithExpiration.get fSucc ⟨1, 0, (), some 0⟩ ⟨[2]⟩ 4 3).state.last
        = 3) ∧
    ((MemoizedWithExpiration.get fSucc ⟨1, 0, (), some 0⟩ ⟨[2]⟩ 4 3).calls = 0 →
      (MemoizedWithExpiration.get fSucc ⟨1, 0, (), some 0⟩ ⟨[2]⟩ 4 3).state
        = ⟨1, 0, (), some 0⟩) ∧
    ((MemoizedWithExpiration.run fSucc (MemoizedWithExpiration.new () 7 5)
        ⟨[2]⟩ [(4, 9)]).state.t = none
      ↔ (MemoizedWithExpiration.run fSucc (MemoizedWithExpiration.new () 7 5)
        ⟨[2]⟩ [(4, 9)]).calls = 0) :=
  mwe_timestamp_amended fSucc () 7 5 3 ⟨1, 0, (), some 0⟩ ⟨[2]⟩ 4 [(4, 9)]
